import Mathlib

/-!
Shallow embedding of the kanji-kana-frequency-counter program (src/main.go,
primary variant, duplicated in src/unnamed/part_000) together with proofs
about the claims of its specification.

Modelling conventions:
* Go `map[string]int` values are modelled as association lists `List (Char × Nat)`
  (every key of these maps in the program is a single rune, `c := string(r)`);
  lookup of an absent key yields the Go zero value 0, insertion of a fresh key
  appends it.  The non-deterministic iteration order of a Go map is passed in
  explicitly where the program iterates over a map (`getMostCommonCharactersList`).
* The external collaborators (the `kana` classifier, the HTML link extractor and
  the network) are parameters: a `Classifier` record of the three predicates, a
  `hrefsOf` function returning the href attribute values of a document in
  document order, and a `fetch` function returning the body of a URL or `none`
  for a fetch/body-read failure.
* `sort.SliceStable` is modelled by `List.insertionSort`, which is stable with
  the same placement discipline, with the relation `r a b := count b ≤ count a`
  (Go comparator `less i j := count i > count j`); a stable sort is uniquely
  determined by the comparator and the input order, so this is extensionally
  the behaviour of the source.
* The traversal `routine(ctx, url, layer)` recurses with `layer - 1` and stops
  at `layer < 0`; it is embedded with fuel `(layer + 1).toNat`, which is 0
  exactly when `layer < 0`.
-/

namespace KanjiKana

/-- The black-box character classifier collaborator (`kana.IsKanji`,
`kana.IsKatakana`, `kana.IsHiragana`), one independent predicate per class. -/
structure Classifier where
  isKanji : Char → Bool
  isKatakana : Char → Bool
  isHiragana : Char → Bool

/-- A Go `map[string]int` whose keys are single characters, as an association
list with pairwise distinct keys. -/
abbrev CountMap := List (Char × Nat)

/-- Go map read `m[k]`: the stored count, or the zero value 0 when absent. -/
def lookupD (m : CountMap) (k : Char) : Nat :=
  match m with
  | [] => 0
  | (k', v) :: rest => if k' = k then v else lookupD rest k

/-- Go map update `m[k] += 1`: increments the entry of `k`, creating it at 1
when absent. -/
def bump (m : CountMap) (k : Char) : CountMap :=
  match m with
  | [] => [(k, 1)]
  | (k', v) :: rest => if k' = k then (k', v + 1) :: rest else (k', v) :: bump rest k

/-- The counter record of src/main.go lines 34-44 (`kanjiKanaFrequencyCounter`). -/
structure KanjiKanaFrequencyCounter where
  allCharacteresCount : Nat := 0
  uniqueCount : Nat := 0
  kanjiUniqueCount : Nat := 0
  kanaUniqueCount : Nat := 0
  hiraganaUniqueCount : Nat := 0
  katakanaUniqueCount : Nat := 0
  kanjis : CountMap := []
  hiraganas : CountMap := []
  katakanas : CountMap := []
deriving DecidableEq

/-- The per-character body of the classification loop, src/main.go lines
146-163: if any of the three predicates holds, `allCharacteresCount` is
incremented once, and each mapping whose predicate holds is incremented. -/
def observe (cls : Classifier) (fc : KanjiKanaFrequencyCounter) (c : Char) :
    KanjiKanaFrequencyCounter :=
  if cls.isKanji c || cls.isKatakana c || cls.isHiragana c then
    let fc1 := { fc with allCharacteresCount := fc.allCharacteresCount + 1 }
    let fc2 := if cls.isKanji c then { fc1 with kanjis := bump fc1.kanjis c } else fc1
    let fc3 := if cls.isKatakana c then { fc2 with katakanas := bump fc2.katakanas c } else fc2
    if cls.isHiragana c then { fc3 with hiraganas := bump fc3.hiraganas c } else fc3
  else fc

/-- `getMostCommonCharactersList` (src/main.go lines 113-126): copies the keys
of the map in its iteration order `iterOrder`, then stable-sorts by strictly
greater count (`sort.SliceStable` with `less i j := m[i] > m[j]`, i.e. an
element goes before another exactly when its count is not smaller; stable sorts
are uniquely determined by comparator and input order). -/
def getMostCommonCharactersList (m : CountMap) (iterOrder : List Char) : List Char :=
  List.insertionSort (fun a b => lookupD m b ≤ lookupD m a) iterOrder

/-- Go `strings.HasPrefix s pre`, on the rune lists of the strings. -/
def hasPrefixGo (s pre : String) : Bool := pre.data.isPrefixOf s.data

/-- Go `strings.HasSuffix s suf`, on the rune lists of the strings. -/
def hasSuffixGo (s suf : String) : Bool := suf.data.isSuffixOf s.data

/-- The href filter of src/main.go lines 179-182: non-empty, not starting with
"http", "#" or "..", and ending with ".html". -/
def hrefCheck (v : String) : Bool :=
  decide (0 < v.length) && !hasPrefixGo v "http" && !hasPrefixGo v "#" &&
    !hasPrefixGo v ".." && hasSuffixGo v ".html"

/-- Insertion into a Go `map[string]struct\x7b\x7d` used as a set, keeping
first-insertion order as the canonical enumeration. -/
def insertNew (s : List String) (a : String) : List String :=
  if a ∈ s then s else s ++ [a]

/-- The link set built at src/main.go lines 165-189: every href attribute value
of the document that passes `hrefCheck` contributes `url ++ "/" ++ v`, collected
into a set (duplicates within the page collapse). -/
def pageLinks (url : String) (hrefVals : List String) : List String :=
  hrefVals.foldl (fun links v => if hrefCheck v then insertNew links (url ++ "/" ++ v) else links) []

/-- The crawl environment: classifier, network fetch (`http.Get` plus
`io.ReadAll`; `none` models a fetch or body-read failure) and the HTML link
extractor collaborator giving the href values of a document in document order. -/
structure CrawlEnv where
  cls : Classifier
  fetch : String → Option String
  hrefsOf : String → List String

/-- Observable crawl state: the counter plus the log of attempted fetches and
the log of reported fetch/read failures, in order. -/
structure CrawlState where
  fc : KanjiKanaFrequencyCounter := {}
  fetchLog : List String := []
  failLog : List String := []
deriving DecidableEq

/-- Body of `routine` (src/main.go lines 128-194) at positive fuel; fuel 0 is
the `layer < 0` guard.  One visit: attempt the fetch; on failure report and
abandon this branch only; on success classify every rune of the body in
document order, then recurse into each filtered, deduplicated child link with
one unit of fuel less. -/
def routineAux (env : CrawlEnv) : Nat → CrawlState → String → CrawlState
  | 0, st, _ => st
  | fuel + 1, st, url =>
    let st1 : CrawlState := { st with fetchLog := st.fetchLog ++ [url] }
    match env.fetch url with
    | none => { st1 with failLog := st1.failLog ++ [url] }
    | some body =>
      let st2 : CrawlState := { st1 with fc := body.data.foldl (observe env.cls) st1.fc }
      (pageLinks url (env.hrefsOf body)).foldl (fun s u => routineAux env fuel s u) st2

/-- `routine(ctx, url, layer)` with its `int` depth budget: returns immediately
when `layer < 0` (fuel `(layer + 1).toNat = 0`). -/
def routine (env : CrawlEnv) (st : CrawlState) (url : String) (layer : Int) : CrawlState :=
  routineAux env (layer + 1).toNat st url

/-- Go `strings.Count(s, pat)` for a non-empty pattern: non-overlapping
occurrences, scanning left to right and skipping past each match; the fuel
argument (instantiated with the length of the text) only forces termination. -/
def countOccAux (pat : List Char) : Nat → List Char → Nat
  | 0, _ => 0
  | _ + 1, [] => 0
  | fuel + 1, c :: rest =>
    if pat.isPrefixOf (c :: rest) then 1 + countOccAux pat fuel ((c :: rest).drop pat.length)
    else countOccAux pat fuel rest

/-- Go `strings.Count(s, pat)` (for the non-empty pattern used by the source). -/
def countOcc (s pat : String) : Nat := countOccAux pat.data s.data.length s.data

def defaultURL : String := "https://www.yomiuri.co.jp"

def defaultSearchDepth : Int := 1

def maxSearchDepth : Int := 10

/-- `validURL` (src/main.go lines 280-283). -/
def validURL (url : String) : Bool :=
  hasPrefixGo url "http" && (countOcc url "://www." == 1)

/-- The `kanas` key-set union built at src/main.go lines 245-252: katakana keys
inserted first, then hiragana keys. -/
def kanaKeys (fc : KanjiKanaFrequencyCounter) : List Char :=
  (fc.hiraganas.map Prod.fst).foldl
    (fun s c => if c ∈ s then s else s ++ [c])
    ((fc.katakanas.map Prod.fst).foldl (fun s c => if c ∈ s then s else s ++ [c]) [])

/-- The derived-count (finalize) step, src/main.go lines 237-254.  Note the
source accumulates `uniqueCount` with `+=` while assigning the per-class unique
counts with `=`. -/
def computeDerivedCounts (fc : KanjiKanaFrequencyCounter) : KanjiKanaFrequencyCounter :=
  { fc with
    uniqueCount := fc.uniqueCount + fc.kanjis.length + fc.katakanas.length + fc.hiraganas.length
    kanjiUniqueCount := fc.kanjis.length
    katakanaUniqueCount := fc.katakanas.length
    hiraganaUniqueCount := fc.hiraganas.length
    kanaUniqueCount := (kanaKeys fc).length }

/-- `scraperOptions` (src/main.go lines 27-30): the search-depth field is a
pointer, `none` models nil. -/
structure ScraperOptions where
  searchDepth : Option Int := none
  loggingMode : Bool := false
deriving DecidableEq

/-- The two option constructors of the source, `WithSearchDepth` (lines
259-270) and `WithLogging` (lines 272-278), as data. -/
inductive GoOpt
  | withSearchDepth (depth : Int)
  | withLogging
deriving DecidableEq

/-- Application of one functional option to the options record. -/
def applyOpt (opts : ScraperOptions) : GoOpt → Except String ScraperOptions
  | .withSearchDepth depth =>
    if depth < 0 then .error "search depth should be positive"
    else if maxSearchDepth ≤ depth then .error "search depth exceeds default maximum depth"
    else .ok { opts with searchDepth := some depth }
  | .withLogging => .ok { opts with loggingMode := true }

/-- The option loop of `newKanjiKanaScraper` (lines 198-204): first error wins. -/
def applyOpts : ScraperOptions → List GoOpt → Except String ScraperOptions
  | opts, [] => .ok opts
  | opts, o :: rest =>
    match applyOpt opts o with
    | .error e => .error e
    | .ok opts2 => applyOpts opts2 rest

/-- Result of the constructor: an option error returned to the caller, the nil
pointer dereference of `*opts.searchDepth` at line 233 when no search-depth
option was supplied, or the final crawl state. -/
inductive ScrapeResult
  | err (msg : String)
  | nilPanic
  | ok (final : CrawlState)
deriving DecidableEq

/-- `newKanjiKanaScraper` (src/main.go lines 196-257, traversal invocation
part): apply the options (returning the first error); replace an invalid root
URL by `defaultURL`; then invoke the traversal with `*opts.searchDepth` — the
defaulted local `searchDepth` of lines 213-218 feeds only the log line, so the
dereference panics whenever the option is absent.  The derived-count step of
lines 237-254 is `computeDerivedCounts`, applied to the final counter. -/
def newKanjiKanaScraper (env : CrawlEnv) (rootURL : String) (options : List GoOpt) :
    ScrapeResult :=
  match applyOpts {} options with
  | .error e => .err e
  | .ok opts =>
    let root := if validURL rootURL then rootURL else defaultURL
    match opts.searchDepth with
    | none => .nilPanic
    | some depth =>
      let final := routine env {} root depth
      .ok { final with fc := computeDerivedCounts final.fc }

/-- `w` is reachable from `u` in at most `n` hops along followable links of
successfully fetched pages. -/
inductive ReachesN (env : CrawlEnv) : String → Nat → String → Prop
  | here (u : String) (n : Nat) : ReachesN env u n u
  | step {u : String} {n : Nat} {v w body : String} :
      env.fetch u = some body → v ∈ pageLinks u (env.hrefsOf body) →
      ReachesN env v n w → ReachesN env u (n + 1) w

/-- A concrete classifier instance for witnesses: three disjoint one-character
classes standing in for the real (disjoint) Unicode ranges. -/
def toyCls : Classifier := ⟨fun c => c = 'K', fun c => c = 'T', fun c => c = 'H'⟩

/-- A classifier whose kanji and katakana predicates overlap on the character
`x`; the classifier is an external collaborator, so the counter must behave
correctly for any predicate valuation. -/
def overlapCls : Classifier := ⟨fun c => c = 'x', fun c => c = 'x', fun _ => false⟩

/-- An environment in which every fetch fails. -/
def trivEnv : CrawlEnv := ⟨toyCls, fun _ => none, fun _ => []⟩

/-- Fixture for failure isolation: the root page "r" holds two kanji and two
child links; the fetch of child "r/a.html" fails, child "r/b.html" holds one
hiragana. -/
def envC8 : CrawlEnv :=
  { cls := toyCls
    fetch := fun url =>
      if url = "r" then some "KK<a>" else if url = "r/b.html" then some "H" else none
    hrefsOf := fun body => if body = "KK<a>" then ["a.html", "b.html"] else [] }

/-- Fixture for cross-page duplication: the root "r" links to "a.html" and to
"a.html/c.html", and the page at "r/a.html" links to "c.html", so the full URL
"r/a.html/c.html" is discovered on two different pages. -/
def envC5 : CrawlEnv :=
  { cls := toyCls
    fetch := fun url =>
      if url = "r" then some "B0"
      else if url = "r/a.html" then some "B1"
      else if url = "r/a.html/c.html" then some "" else none
    hrefsOf := fun body =>
      if body = "B0" then ["a.html", "a.html/c.html"]
      else if body = "B1" then ["c.html"] else [] }

/-- The claim's filter condition, stated declaratively in the spec's words
over the rune list of the href value: non-empty; does not start with "http";
does not start with "#"; does not start with ".."; ends with ".html". -/
def followableSpec (v : String) : Prop :=
  v ≠ "" ∧ (¬ ∃ t, "http".data ++ t = v.data) ∧ (¬ ∃ t, "#".data ++ t = v.data) ∧
    (¬ ∃ t, "..".data ++ t = v.data) ∧ (∃ t, t ++ ".html".data = v.data)

/-! ### Helper lemmas about the map operations -/

theorem lookupD_bump_self (m : CountMap) (k : Char) :
    lookupD (bump m k) k = lookupD m k + 1 := by
  induction m with
  | nil => simp [bump, lookupD]
  | cons p rest ih =>
    obtain ⟨k', v⟩ := p
    by_cases h : k' = k
    · simp [bump, lookupD, h]
    · simp [bump, lookupD, h, ih]

theorem lookupD_bump_ne (m : CountMap) (k k' : Char) (h : k' ≠ k) :
    lookupD (bump m k) k' = lookupD m k' := by
  induction m with
  | nil => simp [bump, lookupD, Ne.symm h]
  | cons p rest ih =>
    obtain ⟨a, v⟩ := p
    by_cases ha : a = k
    · subst ha
      simp [bump, lookupD, Ne.symm h]
    · simp [bump, lookupD, ha, ih]

/-! ### C1: the observe step -/

/-- C1 counterexample: with a classifier whose kanji and katakana predicates
both accept the character `x`, observing `x` once increments
`allCharacteresCount` by exactly 1, not by one per matching class (which would
be 2): the total is guarded by a single disjunction at src/main.go lines
148-149 and incremented once per character, so the claim as stated is false. -/
theorem c1_total_single_increment_counterexample :
    overlapCls.isKanji 'x' = true ∧ overlapCls.isKatakana 'x' = true ∧
      (observe overlapCls {} 'x').allCharacteresCount = 1 ∧
      ¬ (observe overlapCls {} 'x').allCharacteresCount = 2 := by
  decide

/-- C1 amended: `observe` increments the mapping entry of each class whose
predicate accepts the character (creating it at 1 if absent), leaves the
mappings of non-matching classes unchanged, and increments
`allCharacteresCount` by exactly one per observed character that matches at
least one class predicate — not one per matching class. -/
theorem c1_observe_per_class_increments (cls : Classifier)
    (fc : KanjiKanaFrequencyCounter) (c : Char) :
    ((observe cls fc c).allCharacteresCount =
        fc.allCharacteresCount +
          (if cls.isKanji c || cls.isKatakana c || cls.isHiragana c then 1 else 0)) ∧
    (cls.isKanji c = true → lookupD (observe cls fc c).kanjis c = lookupD fc.kanjis c + 1) ∧
    (cls.isKanji c = false → (observe cls fc c).kanjis = fc.kanjis) ∧
    (cls.isKatakana c = true →
      lookupD (observe cls fc c).katakanas c = lookupD fc.katakanas c + 1) ∧
    (cls.isKatakana c = false → (observe cls fc c).katakanas = fc.katakanas) ∧
    (cls.isHiragana c = true →
      lookupD (observe cls fc c).hiraganas c = lookupD fc.hiraganas c + 1) ∧
    (cls.isHiragana c = false → (observe cls fc c).hiraganas = fc.hiraganas) ∧
    (∀ d : Char, d ≠ c → lookupD (observe cls fc c).kanjis d = lookupD fc.kanjis d ∧
      lookupD (observe cls fc c).katakanas d = lookupD fc.katakanas d ∧
      lookupD (observe cls fc c).hiraganas d = lookupD fc.hiraganas d) := by
  have main : ∀ d : Char, d ≠ c →
      lookupD (observe cls fc c).kanjis d = lookupD fc.kanjis d ∧
        lookupD (observe cls fc c).katakanas d = lookupD fc.katakanas d ∧
        lookupD (observe cls fc c).hiraganas d = lookupD fc.hiraganas d := by
    intro d hd
    cases hK : cls.isKanji c <;> cases hT : cls.isKatakana c <;> cases hH : cls.isHiragana c <;>
      refine ⟨?_, ?_, ?_⟩ <;> simp [observe, hK, hT, hH, lookupD_bump_ne _ _ _ hd]
  refine ⟨?_, ?_, ?_, ?_, ?_, ?_, ?_, main⟩ <;>
    cases hK : cls.isKanji c <;> cases hT : cls.isKatakana c <;> cases hH : cls.isHiragana c <;>
      simp [observe, hK, hT, hH, lookupD_bump_self]

/-- C1 witness: concrete application of the amended observe property. -/
theorem c1_observe_per_class_increments_witness :
    lookupD (observe toyCls {} 'K').kanjis 'K' = lookupD ({} : KanjiKanaFrequencyCounter).kanjis 'K' + 1 ∧
      (observe toyCls {} 'K').katakanas = ({} : KanjiKanaFrequencyCounter).katakanas :=
  ⟨(c1_observe_per_class_increments toyCls {} 'K').2.1 (by decide),
    (c1_observe_per_class_increments toyCls {} 'K').2.2.2.2.1 (by decide)⟩

/-! ### C2: rank tie-break determinism -/

/-- C2: the ranking of src/main.go lines 113-126 copies the keys of the map in
Go map iteration order, which is not a function of the map contents, and the
stable sort preserves that order on ties.  For one and the same mapping
(a ↦ 1, b ↦ 1), the two possible iteration orders of its key set produce two
different output sequences, so `rank` is not a deterministic pure function of
the mapping and in particular does not break ties by ascending code point. -/
theorem c2_rank_depends_on_iteration_order :
    getMostCommonCharactersList [('a', 1), ('b', 1)] ['b', 'a'] = ['b', 'a'] ∧
      getMostCommonCharactersList [('a', 1), ('b', 1)] ['a', 'b'] = ['a', 'b'] ∧
      List.Perm ['b', 'a'] ['a', 'b'] ∧
      getMostCommonCharactersList [('a', 1), ('b', 1)] ['b', 'a'] ≠
        getMostCommonCharactersList [('a', 1), ('b', 1)] ['a', 'b'] := by
  decide

/-! ### C7: the derived-count (finalize) step -/

/-- C7 counterexample: on a counter holding one kanji entry and nothing else,
the first application of the derived-count step sets `uniqueCount` to 1 and
leaves the mappings unchanged, yet a second application yields `uniqueCount`
2, because src/main.go lines 237-239 accumulate with `+=` instead of
assigning.  So the step is not idempotent with respect to unchanged mapping
contents. -/
theorem c7_finalize_not_idempotent_counterexample :
    (computeDerivedCounts { kanjis := [('k', 1)] }).kanjis =
        ({ kanjis := [('k', 1)] } : KanjiKanaFrequencyCounter).kanjis ∧
      (computeDerivedCounts { kanjis := [('k', 1)] }).uniqueCount = 1 ∧
      (computeDerivedCounts (computeDerivedCounts { kanjis := [('k', 1)] })).uniqueCount = 2 ∧
      ¬ (computeDerivedCounts (computeDerivedCounts { kanjis := [('k', 1)] })).uniqueCount =
          (computeDerivedCounts { kanjis := [('k', 1)] }).uniqueCount := by
  decide

/-- C7 amended: a second application of the derived-count step with unchanged
mappings reproduces the per-class unique counts (`kanjiUniqueCount`,
`katakanaUniqueCount`, `hiraganaUniqueCount`) and the kana-union count
(`kanaUniqueCount`), and leaves the mappings and `allCharacteresCount`
untouched; `uniqueCount`, however, is accumulated with `+=`, so the second
application adds the distinct-key total once more (idempotent only when all
three mappings are empty). -/
theorem c7_derived_counts_idempotent_except_uniqueCount (fc : KanjiKanaFrequencyCounter) :
    (computeDerivedCounts (computeDerivedCounts fc)).kanjiUniqueCount =
        (computeDerivedCounts fc).kanjiUniqueCount ∧
      (computeDerivedCounts (computeDerivedCounts fc)).katakanaUniqueCount =
        (computeDerivedCounts fc).katakanaUniqueCount ∧
      (computeDerivedCounts (computeDerivedCounts fc)).hiraganaUniqueCount =
        (computeDerivedCounts fc).hiraganaUniqueCount ∧
      (computeDerivedCounts (computeDerivedCounts fc)).kanaUniqueCount =
        (computeDerivedCounts fc).kanaUniqueCount ∧
      (computeDerivedCounts (computeDerivedCounts fc)).kanjis = (computeDerivedCounts fc).kanjis ∧
      (computeDerivedCounts (computeDerivedCounts fc)).katakanas =
        (computeDerivedCounts fc).katakanas ∧
      (computeDerivedCounts (computeDerivedCounts fc)).hiraganas =
        (computeDerivedCounts fc).hiraganas ∧
      (computeDerivedCounts (computeDerivedCounts fc)).allCharacteresCount =
        (computeDerivedCounts fc).allCharacteresCount ∧
      (computeDerivedCounts (computeDerivedCounts fc)).uniqueCount =
        (computeDerivedCounts fc).uniqueCount + (computeDerivedCounts fc).kanjiUniqueCount +
          (computeDerivedCounts fc).katakanaUniqueCount +
          (computeDerivedCounts fc).hiraganaUniqueCount := by
  refine ⟨rfl, rfl, rfl, rfl, rfl, rfl, rfl, rfl, rfl⟩

/-! ### C3: rank is a sorted permutation of the keys -/

/-- C3: for every mapping and every enumeration of its key set (each key
exactly once, in whatever order the Go map yields them), the ranking is a
permutation of the key set (no duplicates, no omissions), its length is the
size of the mapping, every adjacent pair is in non-increasing count order,
and the empty mapping yields the empty sequence.  (In the embedding the input
mapping is a value the function never modifies.) -/
theorem c3_rank_permutation_sorted (m : CountMap) (iterOrder : List Char)
    (hiter : List.Perm iterOrder (m.map Prod.fst)) :
    List.Perm (getMostCommonCharactersList m iterOrder) (m.map Prod.fst) ∧
      (getMostCommonCharactersList m iterOrder).length = m.length ∧
      List.Pairwise (fun a b => lookupD m b ≤ lookupD m a)
        (getMostCommonCharactersList m iterOrder) ∧
      getMostCommonCharactersList m [] = [] := by
  have hperm : List.Perm (getMostCommonCharactersList m iterOrder) iterOrder :=
    List.perm_insertionSort _ _
  refine ⟨hperm.trans hiter, ?_, ?_, rfl⟩
  · rw [hperm.length_eq, hiter.length_eq, List.length_map]
  · haveI ht : IsTotal Char (fun a b => lookupD m b ≤ lookupD m a) :=
      ⟨fun a b => le_total (lookupD m b) (lookupD m a)⟩
    haveI htr : IsTrans Char (fun a b => lookupD m b ≤ lookupD m a) :=
      ⟨fun _ _ _ hab hbc => le_trans hbc hab⟩
    exact List.sorted_insertionSort _ iterOrder

/-- C3 witness: concrete ranking of the mapping (a ↦ 1, b ↦ 2) enumerated as
[a, b]. -/
theorem c3_rank_permutation_sorted_witness :
    List.Perm (getMostCommonCharactersList [('a', 1), ('b', 2)] ['a', 'b'])
        (List.map Prod.fst [('a', 1), ('b', 2)]) ∧
      (getMostCommonCharactersList [('a', 1), ('b', 2)] ['a', 'b']).length = 2 ∧
      List.Pairwise
        (fun a b => lookupD [('a', 1), ('b', 2)] b ≤ lookupD [('a', 1), ('b', 2)] a)
        (getMostCommonCharactersList [('a', 1), ('b', 2)] ['a', 'b']) ∧
      getMostCommonCharactersList [('a', 1), ('b', 2)] [] = [] :=
  c3_rank_permutation_sorted [('a', 1), ('b', 2)] ['a', 'b'] (by decide)

/-! ### C9: search-depth validation -/

/-- C9: requesting a search depth below 0 or at/above `maxSearchDepth` makes
the constructor return the corresponding validation error of
`WithSearchDepth` (src/main.go lines 259-270) before the traversal is invoked
— the error is raised in the option loop, ahead of any fetch or counter
construction — while every depth inside [0, maxSearchDepth) passes option
validation and the run proceeds to a final state. -/
theorem c9_depth_validation (env : CrawlEnv) (rootURL : String) (d : Int) :
    (d < 0 →
      newKanjiKanaScraper env rootURL [.withSearchDepth d, .withLogging] =
        .err "search depth should be positive") ∧
    (maxSearchDepth ≤ d →
      newKanjiKanaScraper env rootURL [.withSearchDepth d, .withLogging] =
        .err "search depth exceeds default maximum depth") ∧
    (0 ≤ d → d < maxSearchDepth →
      ∃ final, newKanjiKanaScraper env rootURL [.withSearchDepth d, .withLogging] = .ok final) := by
  refine ⟨fun h => ?_, fun h => ?_, fun h0 h1 => ?_⟩
  · simp [newKanjiKanaScraper, applyOpts, applyOpt, h]
  · have hneg : ¬ d < 0 := by
      have : (0 : Int) ≤ maxSearchDepth := by decide
      omega
    simp [newKanjiKanaScraper, applyOpts, applyOpt, hneg, h]
  · have hneg : ¬ d < 0 := by omega
    have hmax : ¬ maxSearchDepth ≤ d := by omega
    have hopts : applyOpts {} [GoOpt.withSearchDepth d, GoOpt.withLogging] =
        .ok ⟨some d, true⟩ := by
      simp [applyOpts, applyOpt, hneg, hmax]
    exact ⟨_, by unfold newKanjiKanaScraper; rw [hopts]⟩

/-- C9 witness: depth -1 and depth 10 are rejected with the two validation
errors, depth 0 yields a final state. -/
theorem c9_depth_validation_witness :
    newKanjiKanaScraper trivEnv "u" [.withSearchDepth (-1), .withLogging] =
        .err "search depth should be positive" ∧
      newKanjiKanaScraper trivEnv "u" [.withSearchDepth 10, .withLogging] =
        .err "search depth exceeds default maximum depth" ∧
      ∃ final, newKanjiKanaScraper trivEnv "u" [.withSearchDepth 0, .withLogging] = .ok final :=
  ⟨(c9_depth_validation trivEnv "u" (-1)).1 (by decide),
    (c9_depth_validation trivEnv "u" 10).2.1 (by decide),
    (c9_depth_validation trivEnv "u" 0).2.2 (by decide) (by decide)⟩

/-! ### C10: invalid root URL falls back to the default -/

/-- `validURL` accepts the hard-coded default URL. -/
theorem validURL_defaultURL : validURL defaultURL = true := by decide

/-- C10: when the root URL fails `validURL` (src/main.go lines 280-283: the
"http" leading part together with exactly one occurrence of "://www."), the
constructor does not report an error for it: the whole run is identical to a
run started at the hard-coded `defaultURL` (lines 206-211), and with a valid
depth option it proceeds to a final state. -/
theorem c10_invalid_root_url_fallback (env : CrawlEnv) (rootURL : String)
    (h : validURL rootURL = false) :
    (∀ options, newKanjiKanaScraper env rootURL options =
      newKanjiKanaScraper env defaultURL options) ∧
    (∀ d : Int, 0 ≤ d → d < maxSearchDepth →
      ∃ final, newKanjiKanaScraper env rootURL [.withSearchDepth d] = .ok final) := by
  constructor
  · intro options
    simp [newKanjiKanaScraper, h, validURL_defaultURL]
  · intro d h0 h1
    have hneg : ¬ d < 0 := by omega
    have hmax : ¬ maxSearchDepth ≤ d := by omega
    have hopts : applyOpts {} [GoOpt.withSearchDepth d] = .ok ⟨some d, false⟩ := by
      simp [applyOpts, applyOpt, hneg, hmax]
    exact ⟨_, by unfold newKanjiKanaScraper; rw [hopts]⟩

/-- C10 witness: the root "ftp://www.x" is invalid; the run equals the run on
the default URL and still produces a final state at depth 0. -/
theorem c10_invalid_root_url_fallback_witness :
    newKanjiKanaScraper trivEnv "ftp://www.x" [.withLogging] =
        newKanjiKanaScraper trivEnv defaultURL [.withLogging] ∧
      ∃ final, newKanjiKanaScraper trivEnv "ftp://www.x" [.withSearchDepth 0] = .ok final :=
  ⟨(c10_invalid_root_url_fallback trivEnv "ftp://www.x" (by decide)).1 [.withLogging],
    (c10_invalid_root_url_fallback trivEnv "ftp://www.x" (by decide)).2 0
      (by decide) (by decide)⟩

/-! ### C6: the constructor dereferences the search-depth pointer -/

/-- Applying a list of options that contains no `withSearchDepth` never fails
and leaves the search-depth field of the record untouched. -/
theorem applyOpts_no_depth (options : List GoOpt) :
    ∀ opts : ScraperOptions, (∀ d : Int, GoOpt.withSearchDepth d ∉ options) →
      ∃ b, applyOpts opts options = .ok ⟨opts.searchDepth, b⟩ := by
  induction options with
  | nil => intro opts _; exact ⟨opts.loggingMode, rfl⟩
  | cons o rest ih =>
    intro opts h
    cases o with
    | withSearchDepth d => exact absurd (List.mem_cons_self _ _) (h d)
    | withLogging =>
      obtain ⟨b, hb⟩ := ih { opts with loggingMode := true }
        (fun d hd => h d (List.mem_cons_of_mem _ hd))
      exact ⟨b, by simpa [applyOpts, applyOpt] using hb⟩

/-- C6: `newKanjiKanaScraper` invokes the traversal with `*opts.searchDepth`
(src/main.go line 233) although a defaulted local depth is computed at lines
213-218; so whenever the option list carries no `WithSearchDepth`, the
constructor hits the nil-pointer dereference instead of using the documented
default, and whenever a valid `WithSearchDepth d` is supplied, the traversal
runs with exactly the supplied `d`. -/
theorem c6_constructor_nil_deref :
    (∀ (env : CrawlEnv) (rootURL : String) (options : List GoOpt),
      (∀ d : Int, GoOpt.withSearchDepth d ∉ options) →
      newKanjiKanaScraper env rootURL options = .nilPanic) ∧
    (∀ (env : CrawlEnv) (rootURL : String) (d : Int), 0 ≤ d → d < maxSearchDepth →
      newKanjiKanaScraper env rootURL [.withSearchDepth d] =
        .ok (let final := routine env {} (if validURL rootURL then rootURL else defaultURL) d
             { final with fc := computeDerivedCounts final.fc })) := by
  constructor
  · intro env rootURL options h
    obtain ⟨b, hb⟩ := applyOpts_no_depth options {} h
    simp [newKanjiKanaScraper, hb]
  · intro env rootURL d h0 h1
    have hneg : ¬ d < 0 := by omega
    have hmax : ¬ maxSearchDepth ≤ d := by omega
    simp [newKanjiKanaScraper, applyOpts, applyOpt, hneg, hmax]

/-- C6 witness: with only the logging option the constructor panics on the nil
search-depth pointer; with `WithSearchDepth 0` the traversal runs at depth 0. -/
theorem c6_constructor_nil_deref_witness :
    newKanjiKanaScraper trivEnv "u" [.withLogging] = .nilPanic ∧
      newKanjiKanaScraper trivEnv "u" [.withSearchDepth 0] =
        .ok (let final := routine trivEnv {} (if validURL "u" then "u" else defaultURL) 0
             { final with fc := computeDerivedCounts final.fc }) :=
  ⟨c6_constructor_nil_deref.1 trivEnv "u" [.withLogging]
      (fun d hd => by simp at hd),
    c6_constructor_nil_deref.2 trivEnv "u" 0 (by decide) (by decide)⟩

/-! ### C5: the link filter and per-page deduplication -/

theorem isPrefixOf_iff (p : List Char) :
    ∀ l : List Char, p.isPrefixOf l = true ↔ ∃ t, p ++ t = l := by
  induction p with
  | nil => intro l; simp [List.isPrefixOf]
  | cons a p ih =>
    intro l
    cases l with
    | nil => simp [List.isPrefixOf]
    | cons b l2 =>
      constructor
      · intro h
        have h2 : a = b ∧ p.isPrefixOf l2 = true := by
          simpa [List.isPrefixOf] using h
        obtain ⟨t, ht⟩ := (ih l2).mp h2.2
        exact ⟨t, by rw [List.cons_append, h2.1, ht]⟩
      · rintro ⟨t, ht⟩
        rw [List.cons_append] at ht
        injection ht with h1 h2
        have h3 := (ih l2).mpr ⟨t, h2⟩
        simp [List.isPrefixOf, h1, h3]

theorem isSuffixOf_iff (p l : List Char) :
    p.isSuffixOf l = true ↔ ∃ t, t ++ p = l := by
  rw [List.isSuffixOf, isPrefixOf_iff]
  constructor
  · rintro ⟨t, ht⟩
    refine ⟨t.reverse, ?_⟩
    have h2 := congrArg List.reverse ht
    simpa using h2
  · rintro ⟨t, rfl⟩
    exact ⟨t.reverse, by simp⟩

theorem length_pos_iff_ne_empty (v : String) : 0 < v.length ↔ v ≠ "" := by
  constructor
  · intro h he
    rw [he] at h
    simp at h
  · intro h
    cases v with
    | mk data =>
      cases data with
      | nil => exact absurd (by decide) h
      | cons c cs => simp [String.length]

/-- The source's boolean href filter coincides with the claim's declarative
filter condition. -/
theorem hrefCheck_iff (v : String) : hrefCheck v = true ↔ followableSpec v := by
  simp only [hrefCheck, followableSpec, hasPrefixGo, hasSuffixGo, Bool.and_eq_true,
    decide_eq_true_eq, Bool.not_eq_true']
  rw [← length_pos_iff_ne_empty]
  constructor
  · rintro ⟨⟨⟨⟨h0, h1⟩, h2⟩, h3⟩, h4⟩
    refine ⟨h0, ?_, ?_, ?_, (isSuffixOf_iff _ _).mp h4⟩ <;>
      intro hex <;>
      [exact absurd ((isPrefixOf_iff _ _).mpr hex) (by simp [h1]);
       exact absurd ((isPrefixOf_iff _ _).mpr hex) (by simp [h2]);
       exact absurd ((isPrefixOf_iff _ _).mpr hex) (by simp [h3])]
  · rintro ⟨h0, h1, h2, h3, h4⟩
    refine ⟨⟨⟨⟨h0, ?_⟩, ?_⟩, ?_⟩, (isSuffixOf_iff _ _).mpr h4⟩ <;>
      [cases hb : List.isPrefixOf "http".data v.data;
       cases hb : List.isPrefixOf "#".data v.data;
       cases hb : List.isPrefixOf "..".data v.data] <;>
      first
        | rfl
        | (exact absurd ((isPrefixOf_iff _ _).mp hb) (by assumption))

theorem mem_insertNew (s : List String) (a l : String) :
    l ∈ insertNew s a ↔ l ∈ s ∨ l = a := by
  by_cases h : a ∈ s
  · simp only [insertNew, if_pos h]
    exact ⟨Or.inl, fun h2 => h2.elim id (fun he => he ▸ h)⟩
  · simp [insertNew, if_neg h]

theorem nodup_insertNew (s : List String) (a : String) (h : s.Nodup) :
    (insertNew s a).Nodup := by
  by_cases ha : a ∈ s
  · simpa [insertNew, ha] using h
  · simp only [insertNew, if_neg ha]
    exact h.append (List.nodup_singleton a) (by simp [List.disjoint_singleton, ha])

theorem mem_pageLinks_foldl (url : String) (hrefVals : List String) :
    ∀ (acc : List String) (l : String),
      (l ∈ hrefVals.foldl
          (fun links v => if hrefCheck v then insertNew links (url ++ "/" ++ v) else links) acc) ↔
        l ∈ acc ∨ ∃ v, v ∈ hrefVals ∧ hrefCheck v = true ∧ l = url ++ "/" ++ v := by
  induction hrefVals with
  | nil => intro acc l; simp
  | cons v rest ih =>
    intro acc l
    by_cases hv : hrefCheck v
    · rw [List.foldl_cons, if_pos hv, ih, mem_insertNew]
      constructor
      · rintro ((h | h) | ⟨w, hw, hc, rfl⟩)
        · exact Or.inl h
        · exact Or.inr ⟨v, List.mem_cons_self v rest, hv, h⟩
        · exact Or.inr ⟨w, List.mem_cons_of_mem v hw, hc, rfl⟩
      · rintro (h | ⟨w, hw, hc, rfl⟩)
        · exact Or.inl (Or.inl h)
        · rcases List.mem_cons.mp hw with rfl | hw2
          · exact Or.inl (Or.inr rfl)
          · exact Or.inr ⟨w, hw2, hc, rfl⟩
    · rw [List.foldl_cons, if_neg hv, ih]
      constructor
      · rintro (h | ⟨w, hw, hc, rfl⟩)
        · exact Or.inl h
        · exact Or.inr ⟨w, List.mem_cons_of_mem v hw, hc, rfl⟩
      · rintro (h | ⟨w, hw, hc, rfl⟩)
        · exact Or.inl h
        · rcases List.mem_cons.mp hw with rfl | hw2
          · exact absurd hc hv
          · exact Or.inr ⟨w, hw2, hc, rfl⟩

theorem nodup_pageLinks_foldl (url : String) (hrefVals : List String) :
    ∀ acc : List String, acc.Nodup →
      (hrefVals.foldl
          (fun links v => if hrefCheck v then insertNew links (url ++ "/" ++ v) else links)
          acc).Nodup := by
  induction hrefVals with
  | nil => intro acc h; exact h
  | cons v rest ih =>
    intro acc h
    by_cases hv : hrefCheck v
    · rw [List.foldl_cons, if_pos hv]
      exact ih _ (nodup_insertNew acc _ h)
    · rw [List.foldl_cons, if_neg hv]
      exact ih _ h

/-- C5: a full URL is a member of a page's child-link set exactly when some
href value of that page passes the filter (non-empty, not starting with
"http", "#" or "..", ending with ".html") and the URL is the page URL, "/",
and that href value; the child-link set of one page carries no duplicates
(the same href twice on one page yields one child visit); and in the
cross-page fixture the URL "r/a.html/c.html", discovered on two different
pages, is fetched twice — no deduplication across pages. -/
theorem c5_link_filter_dedup :
    (∀ (url : String) (hrefVals : List String) (l : String),
      l ∈ pageLinks url hrefVals ↔ ∃ v, v ∈ hrefVals ∧ followableSpec v ∧ l = url ++ "/" ++ v) ∧
    (∀ (url : String) (hrefVals : List String), (pageLinks url hrefVals).Nodup) ∧
    ((routine envC5 {} "r" 2).fetchLog.count "r/a.html/c.html" = 2) := by
  refine ⟨?_, ?_, by decide⟩
  · intro url hrefVals l
    rw [pageLinks, mem_pageLinks_foldl]
    simp [hrefCheck_iff]
  · intro url hrefVals
    exact nodup_pageLinks_foldl url hrefVals [] List.nodup_nil

/-! ### C4: depth-budget semantics of the traversal -/

theorem foldl_routineAux_zero (env : CrawlEnv) (links : List String) :
    ∀ st : CrawlState, links.foldl (fun s u => routineAux env 0 s u) st = st := by
  induction links with
  | nil => intro st; rfl
  | cons u rest ih => intro st; exact ih st

theorem foldl_routineAux_mono (env : CrawlEnv) (n : Nat)
    (ih : ∀ (st : CrawlState) (url x : String),
      x ∈ st.fetchLog → x ∈ (routineAux env n st url).fetchLog) :
    ∀ (links : List String) (st : CrawlState) (x : String),
      x ∈ st.fetchLog → x ∈ (links.foldl (fun s u => routineAux env n s u) st).fetchLog := by
  intro links
  induction links with
  | nil => intro st x hx; exact hx
  | cons u rest ihl => intro st x hx; exact ihl _ x (ih st u x hx)

theorem routineAux_fetchLog_mono (env : CrawlEnv) :
    ∀ (fuel : Nat) (st : CrawlState) (url x : String),
      x ∈ st.fetchLog → x ∈ (routineAux env fuel st url).fetchLog := by
  intro fuel
  induction fuel with
  | zero => intro st url x hx; exact hx
  | succ n ih =>
    intro st url x hx
    cases hf : env.fetch url with
    | none =>
      simp only [routineAux, hf]
      exact List.mem_append_left _ hx
    | some body =>
      simp only [routineAux, hf]
      exact foldl_routineAux_mono env n ih _ _ x (List.mem_append_left _ hx)

theorem routineAux_root_fetched (env : CrawlEnv) (fuel : Nat) (st : CrawlState) (url : String)
    (h : 1 ≤ fuel) : url ∈ (routineAux env fuel st url).fetchLog := by
  obtain ⟨n, rfl⟩ : ∃ n, fuel = n + 1 := ⟨fuel - 1, by omega⟩
  cases hf : env.fetch url with
  | none =>
    simp only [routineAux, hf]
    exact List.mem_append_right _ (List.mem_singleton.mpr rfl)
  | some body =>
    simp only [routineAux, hf]
    exact foldl_routineAux_mono env n (routineAux_fetchLog_mono env n) _ _ url
      (List.mem_append_right _ (List.mem_singleton.mpr rfl))

theorem routineAux_fetch_bound (env : CrawlEnv) :
    ∀ (fuel : Nat) (st : CrawlState) (url x : String),
      x ∈ (routineAux env fuel st url).fetchLog →
      x ∈ st.fetchLog ∨ (1 ≤ fuel ∧ ReachesN env url (fuel - 1) x) := by
  intro fuel
  induction fuel with
  | zero => intro st url x h; exact Or.inl h
  | succ n ih =>
    intro st url x h
    have hfold : ∀ (links : List String) (st0 : CrawlState),
        x ∈ (links.foldl (fun s u => routineAux env n s u) st0).fetchLog →
        x ∈ st0.fetchLog ∨ ∃ v, v ∈ links ∧ 1 ≤ n ∧ ReachesN env v (n - 1) x := by
      intro links
      induction links with
      | nil => intro st0 h0; exact Or.inl h0
      | cons u rest ihl =>
        intro st0 h0
        rcases ihl _ h0 with h1 | ⟨v, hv, hn, hr⟩
        · rcases ih st0 u x h1 with h2 | ⟨hn, hr⟩
          · exact Or.inl h2
          · exact Or.inr ⟨u, List.mem_cons_self u rest, hn, hr⟩
        · exact Or.inr ⟨v, List.mem_cons_of_mem u hv, hn, hr⟩
    cases hf : env.fetch url with
    | none =>
      simp only [routineAux, hf] at h
      rcases List.mem_append.mp h with h1 | h1
      · exact Or.inl h1
      · refine Or.inr ⟨by omega, ?_⟩
        rw [List.mem_singleton.mp h1]
        simpa using ReachesN.here url n
    | some body =>
      simp only [routineAux, hf] at h
      rcases hfold _ _ h with h1 | ⟨v, hv, hn, hr⟩
      · rcases List.mem_append.mp h1 with h2 | h2
        · exact Or.inl h2
        · refine Or.inr ⟨by omega, ?_⟩
          rw [List.mem_singleton.mp h2]
          simpa using ReachesN.here url n
      · refine Or.inr ⟨by omega, ?_⟩
        have hstep : ReachesN env url ((n - 1) + 1) x := ReachesN.step hf hv hr
        have hn2 : (n - 1) + 1 = n := by omega
        rw [hn2] at hstep
        simpa using hstep

/-- C4: a traversal call with a negative depth budget does no work at all
(identical state back: no fetch, no counter mutation); a call with depth
budget 0 grows the fetch log by exactly the root URL — one fetch+classify of
the root and zero recursive fetches, however many followable children the root
page has; and for every budget, the root is fetched whenever the budget is
non-negative, while every fetched URL is reachable from the root within
`layer` hops along followable links — the budget permits the root plus
`layer` further hops and nothing beyond. -/
theorem c4_depth_budget_semantics (env : CrawlEnv) (st : CrawlState) (url : String)
    (layer : Int) :
    (layer < 0 → routine env st url layer = st) ∧
    ((routine env st url 0).fetchLog = st.fetchLog ++ [url]) ∧
    (0 ≤ layer → url ∈ (routine env st url layer).fetchLog) ∧
    (∀ x, x ∈ (routine env st url layer).fetchLog →
      x ∈ st.fetchLog ∨ (0 ≤ layer ∧ ReachesN env url layer.toNat x)) := by
  refine ⟨fun h => ?_, ?_, fun h => ?_, fun x hx => ?_⟩
  · have h0 : (layer + 1).toNat = 0 := by omega
    rw [routine, h0]
    rfl
  · have h1 : ((0 : Int) + 1).toNat = 1 := rfl
    rw [routine, h1]
    cases hf : env.fetch url with
    | none => simp [routineAux, hf]
    | some body => simp [routineAux, hf, foldl_routineAux_zero]
  · exact routineAux_root_fetched env _ st url (by omega)
  · rcases routineAux_fetch_bound env _ st url x hx with h1 | ⟨h1, h2⟩
    · exact Or.inl h1
    · refine Or.inr ⟨by omega, ?_⟩
      have he : (layer + 1).toNat - 1 = layer.toNat := by omega
      rwa [he] at h2

/-- C4 witness: concrete runs on the two-child fixture at budgets -1, 0 and 1. -/
theorem c4_depth_budget_semantics_witness :
    routine envC8 {} "r" (-1) = {} ∧
      (routine envC8 {} "r" 0).fetchLog = ([] : List String) ++ ["r"] ∧
      "r" ∈ (routine envC8 {} "r" 1).fetchLog ∧
      ("r" ∈ ({} : CrawlState).fetchLog ∨
        (0 ≤ (1 : Int) ∧ ReachesN envC8 "r" (1 : Int).toNat "r")) :=
  ⟨(c4_depth_budget_semantics envC8 {} "r" (-1)).1 (by decide),
    (c4_depth_budget_semantics envC8 {} "r" 0).2.1,
    (c4_depth_budget_semantics envC8 {} "r" 1).2.2.1 (by decide),
    (c4_depth_budget_semantics envC8 {} "r" 1).2.2.2 "r" (by decide)⟩

/-! ### C8: failure isolation -/

/-- C8: a branch whose fetch (or body read) fails is abandoned on its own —
the visit leaves the counter untouched, reports the failure, explores no
subtree, and returns normally, so enclosing sibling visits simply continue
from this state; and on the concrete fixture whose root has two children with
one failing fetch, the finished run holds the full counts of the root page
(two kanji) and of the surviving child (one hiragana), with the failure
reported and no abort. -/
theorem c8_failure_isolation :
    (∀ (env : CrawlEnv) (st : CrawlState) (url : String) (layer : Int),
      env.fetch url = none → 0 ≤ layer →
      routine env st url layer =
        { st with fetchLog := st.fetchLog ++ [url], failLog := st.failLog ++ [url] }) ∧
    (routine envC8 {} "r" 1 =
      { fc := { allCharacteresCount := 3, kanjis := [('K', 2)], hiraganas := [('H', 1)] },
        fetchLog := ["r", "r/a.html", "r/b.html"], failLog := ["r/a.html"] }) := by
  refine ⟨?_, by decide⟩
  intro env st url layer hfail hlayer
  obtain ⟨n, hn⟩ : ∃ n, (layer + 1).toNat = n + 1 := ⟨layer.toNat, by omega⟩
  rw [routine, hn]
  simp [routineAux, hfail]

/-- C8 witness: in an environment where every fetch fails, a depth-0 visit
only logs the attempt and the failure. -/
theorem c8_failure_isolation_witness :
    routine trivEnv {} "x" 0 = { fc := {}, fetchLog := ["x"], failLog := ["x"] } := by
  have h := c8_failure_isolation.1 trivEnv {} "x" 0 rfl (by decide)
  simpa using h

end KanjiKana
